import Mathlib

/-!
Shallow embedding of `src/app/parse.py`, a single-file scraper for
`quotes.toscrape.com`, together with proofs of the specified properties.

Modelling conventions:
* A fetched page body, after `BeautifulSoup(..., "html.parser")`, is modelled
  by `Soup`: a record answering every CSS-selector query the program makes
  (`select(".quote")`, `select_one(".next")`, and the four author-page
  selectors).  A missing node is `none` / an empty list / `false`.
* The HTTP transport (`requests.get`) is modelled by a `Site` function from a
  URL to either a network failure (in which case `requests.get` raises) or a
  response carrying a status code and a parsed body.  `requests.get` never
  raises on a non-2xx status unless `raise_for_status` is called, which the
  source never does; the model mirrors this by carrying the status code and
  letting callers ignore it.
* Python exceptions are modelled by `Except ScrapeError`: `fetchError` for a
  transport-level exception from `requests.get`, `extractionError` for the
  `AttributeError`/`TypeError`/`KeyError` raised when a selector lookup
  returns `None` (or a tag lacks the requested attribute), `ioError` for a
  failing file write.
* The module-level mutable state (`AUTHOR_CACHE`, insertion-ordered dict) and
  an instrumentation trace of every URL passed to `requests.get` are threaded
  explicitly through each function as a `RunState`.
* CSV output is modelled as the list of rows handed to `csv.writer`; each row
  is a list of `Cell`s, a cell being either a string or (for `Quote.tags`) the
  list of tag strings, matching `dataclasses.astuple`.  The file system is an
  association list from paths to written row lists; a `writable` predicate
  says which paths `open(path, "w")` accepts.
-/

/-- Model of the dataclass `Quote` (fields in declaration order). -/
structure Quote where
  text : String
  author : String
  tags : List String
deriving DecidableEq

/-- Model of the dataclass `Author` (fields in declaration order). -/
structure Author where
  name : String
  born_date : String
  born_location : String
  description : String
deriving DecidableEq

/-- Model of an `<a>` tag as the program uses it: only its `href` attribute is
read; `href = none` models a tag without that attribute (subscripting raises
`KeyError`). -/
structure Anchor where
  href : Option String
deriving DecidableEq

/-- Model of one quote-container (`.quote` node) as the program queries it:
`textNode` is `select_one(".text")`, `authorNode` is `select_one(".author")`,
`anchor` is `select_one("a")`, `tagNodes` is the texts of `select(".tag")` in
document order.  A `none` models a selector that matched nothing. -/
structure QuoteSoup where
  textNode : Option String
  authorNode : Option String
  anchor : Option Anchor
  tagNodes : List String
deriving DecidableEq

/-- Model of a parsed page body: it answers every selector query the program
performs.  `quotes` is `select(".quote")` in document order, `next` is the
truthiness of `select_one(".next")`, and the four author fields are the
author-page selectors (`none` models an absent node). -/
structure Soup where
  quotes : List QuoteSoup
  next : Bool
  authorTitle : Option String
  authorBornDate : Option String
  authorBornLocation : Option String
  authorDescription : Option String
deriving DecidableEq

/-- Outcome of one HTTP request: either the transport raises (network
failure), or a response arrives with some status code and a body that parses
to the given `Soup`.  `requests.get` raises only in the first case. -/
inductive FetchOutcome where
  | netFailure : FetchOutcome
  | response : Nat → Soup → FetchOutcome
deriving DecidableEq

/-- The external web, as a total assignment of fetch outcomes to URLs. -/
def Site : Type := String → FetchOutcome

/-- Model of a `requests.Response`: the program only reads `.content`, which
we carry already parsed as a `Soup`; the status code is carried but, as in
the source, never inspected. -/
structure Response where
  status_code : Nat
  soup : Soup
deriving DecidableEq

/-- Python exceptions relevant to the pipeline: `fetchError` for a transport
exception out of `requests.get`, `extractionError` for the exception raised
when a required node or attribute is absent, `ioError` for a failed
`open(path, "w")`. -/
inductive ScrapeError where
  | fetchError : ScrapeError
  | extractionError : ScrapeError
  | ioError : ScrapeError
deriving DecidableEq

/-- The process-wide mutable state threaded through the run: `trace` records
every URL passed to `requests.get` in call order (instrumentation of the
network boundary), `cache` is the module-level `AUTHOR_CACHE`, an
insertion-ordered mapping from author display name to `Author`. -/
structure RunState where
  trace : List String
  cache : List (String × Author)
deriving DecidableEq

/-- State at interpreter start: no requests made, `AUTHOR_CACHE = {}`. -/
def initState : RunState := { trace := [], cache := [] }

/-- The module constant `BASE_URL`. -/
def BASE_URL : String := "https://quotes.toscrape.com/"

/-- Model of `urllib.parse.urljoin` restricted to the calls the program makes:
the base is always `BASE_URL` (scheme `https`, host `quotes.toscrape.com`,
root path), so a reference starting with a slash (`Char.ofNat 47`) replaces
the whole path and any other reference resolves relative to the root path. -/
def urljoin (base rel : String) : String :=
  if rel.data.head? = some (Char.ofNat 47) then
    "https://quotes.toscrape.com" ++ rel
  else
    base ++ rel

/-- Model of `requests.get(url)`: the URL is recorded in the trace; a network
failure raises `fetchError`; otherwise the response is returned whole —
status code included and unchecked, exactly as in the source. -/
def requests_get (site : Site) (s : RunState) (url : String) :
    RunState × Except ScrapeError Response :=
  ({ s with trace := s.trace ++ [url] },
   match site url with
   | .netFailure => .error .fetchError
   | .response st soup => .ok { status_code := st, soup := soup })

/-- Model of reading `.text` off a `select_one` result: if the selector
matched nothing the value is `None` and the attribute access raises. -/
def textOf : Option String → Except ScrapeError String
  | none => .error .extractionError
  | some t => .ok t

/-- Model of `select_one("a")["href"]`: raises if there is no `<a>` tag
(`None` is not subscriptable) or if the tag has no `href` attribute. -/
def hrefOf : Option Anchor → Except ScrapeError String
  | none => .error .extractionError
  | some a =>
    match a.href with
    | none => .error .extractionError
    | some h => .ok h

/-- Model of `parse_single_author`: on a cache miss, fetch the profile page,
read the four author fields, and insert the record keyed by `author_name`;
on a cache hit only a log line is emitted and nothing changes. -/
def parse_single_author (site : Site) (s : RunState)
    (author_name author_url : String) : RunState × Except ScrapeError Unit :=
  if (s.cache.lookup author_name).isNone then
    match requests_get site s (urljoin BASE_URL author_url) with
    | (s1, .error e) => (s1, .error e)
    | (s1, .ok page) =>
      match textOf page.soup.authorTitle with
      | .error e => (s1, .error e)
      | .ok name =>
        match textOf page.soup.authorBornDate with
        | .error e => (s1, .error e)
        | .ok born_date =>
          match textOf page.soup.authorBornLocation with
          | .error e => (s1, .error e)
          | .ok born_location =>
            match textOf page.soup.authorDescription with
            | .error e => (s1, .error e)
            | .ok description =>
              ({ s1 with cache := s1.cache ++
                  [(author_name,
                    { name := name, born_date := born_date,
                      born_location := born_location,
                      description := description })] },
               .ok ())
  else
    (s, .ok ())

/-- Model of `parse_single_quote`: read the author name and the author link's
`href`, synchronously resolve the author, then build the `Quote` from the
text node, the author name and the tag texts. -/
def parse_single_quote (site : Site) (s : RunState) (quote_soup : QuoteSoup) :
    RunState × Except ScrapeError Quote :=
  match textOf quote_soup.authorNode with
  | .error e => (s, .error e)
  | .ok author_name =>
    match hrefOf quote_soup.anchor with
    | .error e => (s, .error e)
    | .ok author_url =>
      match parse_single_author site s author_name author_url with
      | (s1, .error e) => (s1, .error e)
      | (s1, .ok _) =>
        match textOf quote_soup.textNode with
        | .error e => (s1, .error e)
        | .ok text =>
          (s1, .ok { text := text, author := author_name,
                     tags := quote_soup.tagNodes })

/-- Model of the list comprehension in `get_single_page_quotes`: containers
are processed left to right; the first exception aborts the whole list. -/
def parse_quotes_list (site : Site) :
    List QuoteSoup → RunState → RunState × Except ScrapeError (List Quote)
  | [], s => (s, .ok [])
  | q :: rest, s =>
    match parse_single_quote site s q with
    | (s1, .error e) => (s1, .error e)
    | (s1, .ok quote) =>
      match parse_quotes_list site rest s1 with
      | (s2, .error e) => (s2, .error e)
      | (s2, .ok quotes) => (s2, .ok (quote :: quotes))

/-- Model of `get_single_page_quotes`: select all quote-containers on the
page and parse each in document order. -/
def get_single_page_quotes (site : Site) (s : RunState) (page_soup : Soup) :
    RunState × Except ScrapeError (List Quote) :=
  parse_quotes_list site page_soup.quotes s

/-- Model of `is_next_page`: truthiness of `select_one(".next")`. -/
def is_next_page (page_soup : Soup) : Bool :=
  page_soup.next

/-- Model of the `while is_next_page(soup)` loop in `get_quotes`.  `fuel`
bounds the number of iterations so the function is total; `none` means the
loop would run past the given fuel (the source has no bound at all).  Each
iteration increments `page_num`, fetches `page/{page_num}/` relative to
`BASE_URL`, parses it, extends the accumulator, and loops on the new soup. -/
def get_quotes_loop (site : Site) :
    Nat → Soup → List Quote → Nat → RunState →
    Option (RunState × Except ScrapeError (List Quote))
  | fuel, soup, all_quotes, page_num, s =>
    if is_next_page soup then
      match fuel with
      | 0 => none
      | fuel' + 1 =>
        match requests_get site s
            (urljoin BASE_URL ("page/" ++ toString (page_num + 1) ++ "/")) with
        | (s1, .error e) => some (s1, .error e)
        | (s1, .ok page) =>
          match get_single_page_quotes site s1 page.soup with
          | (s2, .error e) => some (s2, .error e)
          | (s2, .ok qs) =>
            get_quotes_loop site fuel' page.soup (all_quotes ++ qs)
              (page_num + 1) s2
    else
      some (s, .ok all_quotes)

/-- Model of `get_quotes`: fetch the root page, parse it, set `page_num = 1`,
then run the pagination loop. -/
def get_quotes (site : Site) (fuel : Nat) (s : RunState) :
    Option (RunState × Except ScrapeError (List Quote)) :=
  match requests_get site s BASE_URL with
  | (s1, .error e) => some (s1, .error e)
  | (s1, .ok page) =>
    match get_single_page_quotes site s1 page.soup with
    | (s2, .error e) => some (s2, .error e)
    | (s2, .ok all_quotes) => get_quotes_loop site fuel page.soup all_quotes 1 s2

/-- One CSV cell as handed to `csv.writer`: `Quote.tags` stays a list inside
its tuple (`dataclasses.astuple`), every other field is a string. -/
inductive Cell where
  | str : String → Cell
  | strList : List String → Cell
deriving DecidableEq

/-- One CSV row. -/
def Row : Type := List Cell

/-- The file system visible to the program: which paths have been written,
and with which rows. -/
def FS : Type := List (String × List Row)

/-- Overwrite-or-create semantics of `open(path, "w")` followed by writing
all rows. -/
def setFile : FS → String → List Row → FS
  | [], p, rows => [(p, rows)]
  | (q, r) :: t, p, rows =>
    if q = p then (p, rows) :: t else (q, r) :: setFile t p rows

/-- Content of a path, if it has been written. -/
def getFile : FS → String → Option (List Row)
  | [], _ => none
  | (q, r) :: t, p => if q = p then some r else getFile t p

/-- Model of `QUOTE_FIELDS = [field.name for field in fields(Quote)]`. -/
def QUOTE_FIELDS : List String := ["text", "author", "tags"]

/-- Model of `AUTHOR_FIELDS = [field.name for field in fields(Author)]`. -/
def AUTHOR_FIELDS : List String := ["name", "born_date", "born_location", "description"]

/-- Model of `dataclasses.astuple` on a `Quote`. -/
def quoteAstuple (q : Quote) : Row :=
  [Cell.str q.text, Cell.str q.author, Cell.strList q.tags]

/-- Model of `dataclasses.astuple` on an `Author`. -/
def authorAstuple (a : Author) : Row :=
  [Cell.str a.name, Cell.str a.born_date, Cell.str a.born_location,
   Cell.str a.description]

/-- Rows written by `write_quotes_to_csv`: the header, then one row per
quote in list order. -/
def quotes_csv_rows (quotes : List Quote) : List Row :=
  QUOTE_FIELDS.map Cell.str :: quotes.map quoteAstuple

/-- Rows written by `write_author_to_csv`: the header, then one row per
cached author in cache (insertion) order, via `AUTHOR_CACHE.values()`. -/
def authors_csv_rows (cache : List (String × Author)) : List Row :=
  AUTHOR_FIELDS.map Cell.str :: cache.map (fun e => authorAstuple e.2)

/-- Model of `write_quotes_to_csv`: open the target for writing (an
unwritable path raises before anything is modified), then write the header
and one row per quote. -/
def write_quotes_to_csv (writable : String → Bool) (fs : FS)
    (output_csv_path : String) (quotes : List Quote) : Except ScrapeError FS :=
  if writable output_csv_path then
    .ok (setFile fs output_csv_path (quotes_csv_rows quotes))
  else
    .error .ioError

/-- Model of `write_author_to_csv`: as in the source it takes only the path;
the rows come from the global `AUTHOR_CACHE`, here the threaded `cache`. -/
def write_author_to_csv (writable : String → Bool) (fs : FS)
    (csv_path : String) (cache : List (String × Author)) : Except ScrapeError FS :=
  if writable csv_path then
    .ok (setFile fs csv_path (authors_csv_rows cache))
  else
    .error .ioError

/-- Model of `main(output_csv_path)` (named `main_run` since Lean reserves `main`): run the walk from the empty cache, then
write the quotes file to the given path, then the authors file to the fixed
path `"author.csv"`.  The result pairs the final file system with the run's
outcome; `none` means the walk out-ran its fuel. -/
def main_run (site : Site) (fuel : Nat) (writable : String → Bool) (fs : FS)
    (output_csv_path : String) : Option (FS × Except ScrapeError Unit) :=
  match get_quotes site fuel initState with
  | none => none
  | some (_, .error e) => some (fs, .error e)
  | some (s, .ok quotes) =>
    match write_quotes_to_csv writable fs output_csv_path quotes with
    | .error e => some (fs, .error e)
    | .ok fs1 =>
      match write_author_to_csv writable fs1 "author.csv" s.cache with
      | .error e => some (fs1, .error e)
      | .ok fs2 => some (fs2, .ok ())

/-! ### Specification-side helpers (derived vocabulary over the model) -/

/-- Keys of the author cache, in insertion order. -/
def cacheKeys (c : List (String × Author)) : List String :=
  c.map Prod.fst

/-- Display name a container carries (meaningful when `containerOk`). -/
def authorNameOf (q : QuoteSoup) : String :=
  q.authorNode.getD ""

/-- Value of the `href` attribute of the container's first `<a>` tag
(meaningful when `containerOk`). -/
def containerHref (q : QuoteSoup) : String :=
  (q.anchor.bind Anchor.href).getD ""

/-- Presence of every field node `parse_single_quote` requires on a
quote-container: the text node, the author display-name node, and an `<a>`
tag carrying an `href`. -/
def containerOk (q : QuoteSoup) : Bool :=
  q.authorNode.isSome && (q.anchor.bind Anchor.href).isSome && q.textNode.isSome

/-- The `Quote` extraction yields for a well-formed container. -/
def containerQuote (q : QuoteSoup) : Quote :=
  { text := q.textNode.getD "", author := authorNameOf q, tags := q.tagNodes }

/-- The URL responds (no network failure) with a body carrying all four
author-page fields, so author resolution there cannot fail. -/
def authorGoodAt (site : Site) (url : String) : Bool :=
  match site url with
  | .netFailure => false
  | .response _ soup =>
    soup.authorTitle.isSome && soup.authorBornDate.isSome &&
    soup.authorBornLocation.isSome && soup.authorDescription.isSome

/-- The URL responds (with any status code) with the given body. -/
def servesSoup (site : Site) (url : String) (soup : Soup) : Bool :=
  match site url with
  | .netFailure => false
  | .response _ s => decide (s = soup)

/-- URL the walk uses for the n-th listing page (1-based): the root for
page 1, `page/{n}/` joined to `BASE_URL` afterwards. -/
def pageUrl (n : Nat) : String :=
  if n = 1 then BASE_URL else urljoin BASE_URL ("page/" ++ toString n ++ "/")

/-- Listing-page URLs `pageUrl st, pageUrl (st+1), ...` (`cnt` of them). -/
def chainUrls : Nat → Nat → List String
  | _, 0 => []
  | st, cnt + 1 => pageUrl st :: chainUrls (st + 1) cnt

/-- Membership test against the URLs of an n-page chain. -/
def isListingUrl (n : Nat) (u : String) : Bool :=
  decide (u ∈ chainUrls 1 n)

/-- The site serves the given finite chain of listing pages: the i-th page
(0-based index, 1-based page number) is at `pageUrl (i+1)`, and exactly the
non-final pages carry the next-page indicator. -/
def servesChain (site : Site) (pages : List Soup) : Prop :=
  (∀ i (h : i < pages.length),
    servesSoup site (pageUrl (i + 1)) (pages.get ⟨i, h⟩) = true) ∧
  (∀ i (h : i < pages.length),
    (pages.get ⟨i, h⟩).next = decide (i + 1 < pages.length))

/-- Every container of every chain page is well formed and its author page
resolves without failure. -/
def pagesAllOk (site : Site) (pages : List Soup) : Prop :=
  ∀ p ∈ pages, ∀ q ∈ p.quotes,
    containerOk q = true ∧
    authorGoodAt site (urljoin BASE_URL (containerHref q)) = true

/-- Author-page URLs referenced from the chain never collide with a
listing-page URL of the chain. -/
def pagesAvoidListing (pages : List Soup) : Prop :=
  ∀ p ∈ pages, ∀ q ∈ p.quotes,
    isListingUrl pages.length (urljoin BASE_URL (containerHref q)) = false

/-- Quotes of the whole chain, page-then-document order. -/
def chainQuotes (pages : List Soup) : List Quote :=
  (pages.map (fun p => p.quotes.map containerQuote)).flatten

/-- Numeric value of a decimal digit character (used to invert
`Nat.digitChar`). -/
def charVal (c : Char) : Nat := c.toNat - 48

/-- Decimal digit characters of `n`, most significant first: the reference
shape of `Nat.toDigits 10 n`, recursing on `n / 10`. -/
def digitsList (n : Nat) : List Char :=
  if _h : n < 10 then [Nat.digitChar n]
  else digitsList (n / 10) ++ [Nat.digitChar (n % 10)]
decreasing_by exact Nat.div_lt_self (by omega) (by omega)

/-! ### Concrete pages and sites for witnesses and counterexamples -/

/-- Page body with no quote containers, no next indicator, no author fields
(for instance an error page served with a non-2xx status). -/
def soupEmpty : Soup :=
  { quotes := [], next := false, authorTitle := none, authorBornDate := none,
    authorBornLocation := none, authorDescription := none }

/-- A site whose root listing answers with HTTP status 404 and an empty body;
every other URL is a network failure. -/
def site404 : Site := fun url =>
  if url = BASE_URL then .response 404 soupEmpty else .netFailure

/-- A site on which every request is a network failure. -/
def siteDead : Site := fun _ => .netFailure

/-- A well-formed quote-container by the author "Alice". -/
def quoteA : QuoteSoup :=
  { textNode := some "T1", authorNode := some "Alice",
    anchor := some { href := some "/author/Alice" }, tagNodes := ["t1", "t2"] }

/-- A second well-formed container by the same author "Alice". -/
def quoteB : QuoteSoup :=
  { textNode := some "T2", authorNode := some "Alice",
    anchor := some { href := some "/author/Alice" }, tagNodes := [] }

/-- Alice's author profile page, carrying all four fields. -/
def aliceSoup : Soup :=
  { quotes := [], next := false, authorTitle := some "Alice",
    authorBornDate := some "b", authorBornLocation := some "l",
    authorDescription := some "d" }

/-- Alice's resolved record. -/
def aliceAuthor : Author :=
  { name := "Alice", born_date := "b", born_location := "l", description := "d" }

/-- A single listing page with two quotes by the same author and no next
indicator. -/
def rootAB : Soup :=
  { quotes := [quoteA, quoteB], next := false, authorTitle := none,
    authorBornDate := none, authorBornLocation := none,
    authorDescription := none }

/-- One-page site: the root listing plus Alice's profile page. -/
def demoSite : Site := fun url =>
  if url = BASE_URL then .response 200 rootAB
  else if url = "https://quotes.toscrape.com/author/Alice" then .response 200 aliceSoup
  else .netFailure

/-- Final state of the successful run over `demoSite`: both listing and
author page fetched once, Alice cached once. -/
def demoFinal : RunState :=
  { trace := [BASE_URL, "https://quotes.toscrape.com/author/Alice"],
    cache := [("Alice", aliceAuthor)] }

/-- Quotes extracted from `demoSite`, in document order. -/
def demoQuotes : List Quote :=
  [{ text := "T1", author := "Alice", tags := ["t1", "t2"] },
   { text := "T2", author := "Alice", tags := [] }]

/-- First page of the two-page chain: one quote, next indicator present. -/
def chainPage1 : Soup :=
  { quotes := [quoteA], next := true, authorTitle := none,
    authorBornDate := none, authorBornLocation := none,
    authorDescription := none }

/-- Second page of the two-page chain: one quote, no next indicator. -/
def chainPage2 : Soup :=
  { quotes := [quoteB], next := false, authorTitle := none,
    authorBornDate := none, authorBornLocation := none,
    authorDescription := none }

/-- The two-page chain. -/
def chainPages : List Soup := [chainPage1, chainPage2]

/-- Two-page site: the root listing, `page/2/`, and Alice's profile page. -/
def chainSite : Site := fun url =>
  if url = BASE_URL then .response 200 chainPage1
  else if url = "https://quotes.toscrape.com/page/2/" then .response 200 chainPage2
  else if url = "https://quotes.toscrape.com/author/Alice" then .response 200 aliceSoup
  else .netFailure

/-- A page with a single well-formed container (all required nodes present),
used against `siteDead` where its author page cannot be fetched. -/
def pageOneGood : Soup :=
  { quotes := [quoteA], next := false, authorTitle := none,
    authorBornDate := none, authorBornLocation := none,
    authorDescription := none }

/-! ### Helper lemmas about the cache -/

theorem lookup_isSome_iff (c : List (String × Author)) (k : String) :
    (c.lookup k).isSome = true ↔ k ∈ cacheKeys c := by
  induction c with
  | nil => simp [List.lookup, cacheKeys]
  | cons e t ih =>
    obtain ⟨a, b⟩ := e
    cases h : (k == a) with
    | true =>
      have hk : k = a := by simpa using h
      subst hk
      simp [List.lookup, h, cacheKeys]
    | false =>
      have hk : ¬ k = a := by simpa using h
      simp only [List.lookup, h, cacheKeys, List.map_cons, List.mem_cons]
      rw [cacheKeys] at ih
      simp [ih, hk]

theorem lookup_isSome_append (c ex : List (String × Author)) (k : String)
    (h : (c.lookup k).isSome = true) : ((c ++ ex).lookup k).isSome = true := by
  induction c with
  | nil => simp [List.lookup] at h
  | cons e t ih =>
    obtain ⟨a, b⟩ := e
    cases hk : (k == a) with
    | true => simp [List.lookup, hk]
    | false =>
      simp only [List.lookup, hk] at h
      simpa [List.lookup, hk] using ih h

theorem cacheKeys_append (c d : List (String × Author)) :
    cacheKeys (c ++ d) = cacheKeys c ++ cacheKeys d := by
  simp [cacheKeys]

theorem countP_key_eq_count (c : List (String × Author)) (k : String) :
    c.countP (fun e => e.1 == k) = (cacheKeys c).count k := by
  simp [cacheKeys, List.count_eq_countP, List.countP_map]; rfl

/-! ### Exhaustive case analysis of one author resolution -/

theorem parse_single_author_cases (site : Site) (s : RunState) (name url : String) :
    ((s.cache.lookup name).isSome = true ∧
      parse_single_author site s name url = (s, .ok ())) ∨
    ((s.cache.lookup name).isNone = true ∧
      ((site (urljoin BASE_URL url) = .netFailure ∧
        parse_single_author site s name url =
          ({ trace := s.trace ++ [urljoin BASE_URL url], cache := s.cache },
           .error .fetchError)) ∨
       (∃ st soup, site (urljoin BASE_URL url) = .response st soup ∧
         (((soup.authorTitle = none ∨ soup.authorBornDate = none ∨
            soup.authorBornLocation = none ∨ soup.authorDescription = none) ∧
           parse_single_author site s name url =
             ({ trace := s.trace ++ [urljoin BASE_URL url], cache := s.cache },
              .error .extractionError)) ∨
          (∃ t bd bl d, soup.authorTitle = some t ∧ soup.authorBornDate = some bd ∧
            soup.authorBornLocation = some bl ∧ soup.authorDescription = some d ∧
            parse_single_author site s name url =
              ({ trace := s.trace ++ [urljoin BASE_URL url],
                 cache := s.cache ++ [(name, ⟨t, bd, bl, d⟩)] }, .ok ())))))) := by
  by_cases hmiss : (s.cache.lookup name).isNone = true
  · right
    refine ⟨hmiss, ?_⟩
    cases hsite : site (urljoin BASE_URL url) with
    | netFailure =>
      exact Or.inl ⟨rfl, by simp [parse_single_author, requests_get, hmiss, hsite]⟩
    | response st soup =>
      refine Or.inr ⟨st, soup, rfl, ?_⟩
      cases ht : soup.authorTitle with
      | none =>
        exact Or.inl ⟨Or.inl rfl,
          by simp [parse_single_author, requests_get, hmiss, hsite, ht, textOf]⟩
      | some t =>
        cases hbd : soup.authorBornDate with
        | none =>
          exact Or.inl ⟨Or.inr (Or.inl rfl),
            by simp [parse_single_author, requests_get, hmiss, hsite, ht, hbd, textOf]⟩
        | some bd =>
          cases hbl : soup.authorBornLocation with
          | none =>
            exact Or.inl ⟨Or.inr (Or.inr (Or.inl rfl)),
              by simp [parse_single_author, requests_get, hmiss, hsite, ht, hbd, hbl, textOf]⟩
          | some bl =>
            cases hd : soup.authorDescription with
            | none =>
              exact Or.inl ⟨Or.inr (Or.inr (Or.inr rfl)),
                by simp [parse_single_author, requests_get, hmiss, hsite,
                         ht, hbd, hbl, hd, textOf]⟩
            | some d =>
              exact Or.inr ⟨t, bd, bl, d, rfl, rfl, rfl, rfl,
                by simp [parse_single_author, requests_get, hmiss, hsite,
                         ht, hbd, hbl, hd, textOf]⟩
  · left
    have hsome : (s.cache.lookup name).isSome = true := by
      cases h : s.cache.lookup name with
      | none => exact absurd (by simp [h]) hmiss
      | some v => simp
    exact ⟨hsome, by simp [parse_single_author, hmiss]⟩

theorem parse_single_author_hit (site : Site) (s : RunState) (name url : String)
    (h : (s.cache.lookup name).isSome = true) :
    parse_single_author site s name url = (s, .ok ()) := by
  rcases parse_single_author_cases site s name url with ⟨_, hh⟩ | ⟨hm, _⟩
  · exact hh
  · cases hl : s.cache.lookup name with
    | none => rw [hl] at h; simp at h
    | some v => rw [hl] at hm; simp at hm

theorem parse_single_author_shape (site : Site) (s : RunState) (name url : String) :
    ∃ tex ex,
      (parse_single_author site s name url).1 =
        { trace := s.trace ++ tex, cache := s.cache ++ ex } ∧
      (∀ u ∈ tex, u = urljoin BASE_URL url) ∧
      (∀ p ∈ ex, p.1 = name) ∧
      (∀ e, (parse_single_author site s name url).2 = .error e → ex = []) ∧
      ((parse_single_author site s name url).2 = .ok () →
        name ∈ cacheKeys (parse_single_author site s name url).1.cache) := by
  rcases parse_single_author_cases site s name url with
    ⟨hs, hh⟩ | ⟨hm, ⟨hnet, hh⟩ | ⟨st, soup, hsite,
      ⟨hmissing, hh⟩ | ⟨t, bd, bl, d, _, _, _, _, hh⟩⟩⟩
  · refine ⟨[], [], by simp [hh], by simp, by simp, by simp [hh], ?_⟩
    intro _
    rw [hh]
    exact (lookup_isSome_iff _ _).mp hs
  · exact ⟨[urljoin BASE_URL url], [], by simp [hh], by simp, by simp,
      by simp, by simp [hh]⟩
  · exact ⟨[urljoin BASE_URL url], [], by simp [hh], by simp, by simp,
      by simp, by simp [hh]⟩
  · refine ⟨[urljoin BASE_URL url], [(name, ⟨t, bd, bl, d⟩)], by simp [hh],
      by simp, by simp, by simp [hh], ?_⟩
    intro _
    rw [hh]
    simp [cacheKeys]

theorem parse_single_author_nodup (site : Site) (s : RunState) (name url : String)
    (hn : (cacheKeys s.cache).Nodup) :
    (cacheKeys (parse_single_author site s name url).1.cache).Nodup := by
  rcases parse_single_author_cases site s name url with
    ⟨hs, hh⟩ | ⟨hm, ⟨hnet, hh⟩ | ⟨st, soup, hsite,
      ⟨hmissing, hh⟩ | ⟨t, bd, bl, d, _, _, _, _, hh⟩⟩⟩
  · rw [hh]; exact hn
  · rw [hh]; exact hn
  · rw [hh]; exact hn
  · rw [hh]
    have hnotin : name ∉ cacheKeys s.cache := by
      intro hmem
      have := (lookup_isSome_iff s.cache name).mpr hmem
      cases hl : s.cache.lookup name with
      | none => rw [hl] at this; simp at this
      | some v => rw [hl] at hm; simp at hm
    simp [cacheKeys_append, List.nodup_append, hn, cacheKeys, hnotin]
    exact ⟨by simpa [cacheKeys] using hn,
      fun x hx => hnotin (by simpa [cacheKeys] using List.mem_map_of_mem Prod.fst hx)⟩

theorem hrefOf_eq (o : Option Anchor) :
    hrefOf o = (match o.bind Anchor.href with
                | none => .error .extractionError
                | some h => .ok h) := by
  cases o with
  | none => rfl
  | some a => cases ah : a.href <;> simp [hrefOf, Option.bind, ah]

theorem parse_single_quote_run (site : Site) (s : RunState) (q : QuoteSoup) :
    ∃ tex ex,
      (parse_single_quote site s q).1 =
        { trace := s.trace ++ tex, cache := s.cache ++ ex } ∧
      (∀ u ∈ tex, u = urljoin BASE_URL (containerHref q)) ∧
      (∀ p ∈ ex, p.1 = authorNameOf q) ∧
      ((cacheKeys s.cache).Nodup →
        (cacheKeys (parse_single_quote site s q).1.cache).Nodup) ∧
      (∀ quote, (parse_single_quote site s q).2 = .ok quote →
        quote = containerQuote q ∧ containerOk q = true ∧
        quote.author ∈ cacheKeys (parse_single_quote site s q).1.cache) := by
  cases ha : q.authorNode with
  | none =>
    refine ⟨[], [], by simp [parse_single_quote, ha, textOf], by simp, by simp,
      fun hn => by simpa [parse_single_quote, ha, textOf] using hn, ?_⟩
    intro quote hq
    simp [parse_single_quote, ha, textOf] at hq
  | some name =>
    have hname : authorNameOf q = name := by simp [authorNameOf, ha]
    cases hb : q.anchor.bind Anchor.href with
    | none =>
      have hro : hrefOf q.anchor = .error .extractionError := by
        rw [hrefOf_eq, hb]
      refine ⟨[], [], by simp [parse_single_quote, ha, textOf, hro],
        by simp, by simp,
        fun hn => by simpa [parse_single_quote, ha, textOf, hro] using hn, ?_⟩
      intro quote hq
      simp [parse_single_quote, ha, textOf, hro] at hq
    | some href =>
      have hro : hrefOf q.anchor = .ok href := by
        rw [hrefOf_eq, hb]
      have hhref : containerHref q = href := by simp [containerHref, hb]
      obtain ⟨tex, ex, h1, h2, h3, herr, hok⟩ :=
        parse_single_author_shape site s name href
      rcases hpa : parse_single_author site s name href with ⟨s1, r⟩
      rw [hpa] at h1 herr hok
      cases r with
      | error e =>
        refine ⟨tex, ex, ?_, ?_, ?_, ?_, ?_⟩
        · simpa [parse_single_quote, ha, textOf, hro, hpa] using h1
        · intro u hu; rw [hhref]; exact h2 u hu
        · intro p hp; rw [hname]; exact h3 p hp
        · intro hn
          have hnod := parse_single_author_nodup site s name href hn
          rw [hpa] at hnod
          simpa [parse_single_quote, ha, textOf, hro, hpa] using hnod
        · intro quote hq
          simp [parse_single_quote, ha, textOf, hro, hpa] at hq
      | ok _ =>
        cases ht : q.textNode with
        | none =>
          refine ⟨tex, ex, ?_, ?_, ?_, ?_, ?_⟩
          · simpa [parse_single_quote, ha, textOf, hro, hpa, ht] using h1
          · intro u hu; rw [hhref]; exact h2 u hu
          · intro p hp; rw [hname]; exact h3 p hp
          · intro hn
            have hnod := parse_single_author_nodup site s name href hn
            rw [hpa] at hnod
            simpa [parse_single_quote, ha, textOf, hro, hpa, ht] using hnod
          · intro quote hq
            simp [parse_single_quote, ha, textOf, hro, hpa, ht] at hq
        | some txt =>
          refine ⟨tex, ex, ?_, ?_, ?_, ?_, ?_⟩
          · simpa [parse_single_quote, ha, textOf, hro, hpa, ht] using h1
          · intro u hu; rw [hhref]; exact h2 u hu
          · intro p hp; rw [hname]; exact h3 p hp
          · intro hn
            have hnod := parse_single_author_nodup site s name href hn
            rw [hpa] at hnod
            simpa [parse_single_quote, ha, textOf, hro, hpa, ht] using hnod
          · intro quote hq
            simp only [parse_single_quote, ha, textOf, hro, hpa, ht] at hq
            have hq' : quote = { text := txt, author := name, tags := q.tagNodes } := by
              cases hq; rfl
            subst hq'
            refine ⟨by simp [containerQuote, ht, authorNameOf, ha], ?_, ?_⟩
            · simp [containerOk, ha, hb, ht]
            · have := hok rfl
              simpa [parse_single_quote, ha, textOf, hro, hpa, ht] using this

theorem parse_quotes_list_run (site : Site) (qs : List QuoteSoup) :
    ∀ s : RunState,
      (∃ tex ex,
        (parse_quotes_list site qs s).1 =
          { trace := s.trace ++ tex, cache := s.cache ++ ex } ∧
        (∀ u ∈ tex, ∃ q, q ∈ qs ∧ u = urljoin BASE_URL (containerHref q))) ∧
      ((cacheKeys s.cache).Nodup →
        (cacheKeys (parse_quotes_list site qs s).1.cache).Nodup) ∧
      (∀ quotes, (parse_quotes_list site qs s).2 = .ok quotes →
        (∀ quote, quote ∈ quotes →
          quote.author ∈ cacheKeys (parse_quotes_list site qs s).1.cache) ∧
        (∀ k, k ∈ cacheKeys (parse_quotes_list site qs s).1.cache →
          k ∈ cacheKeys s.cache ∨ ∃ quote, quote ∈ quotes ∧ quote.author = k)) := by
  induction qs with
  | nil =>
    intro s
    refine ⟨⟨[], [], by simp [parse_quotes_list], by simp⟩,
      fun hn => by simpa [parse_quotes_list] using hn, ?_⟩
    intro quotes hq
    simp only [parse_quotes_list] at hq
    cases hq
    exact ⟨fun quote hq' => absurd hq' (List.not_mem_nil _),
      fun k hk => Or.inl (by simpa [parse_quotes_list] using hk)⟩
  | cons q rest ih =>
    intro s
    obtain ⟨tex1, ex1, hst1, htex1, hex1, hnod1, hok1⟩ := parse_single_quote_run site s q
    rcases hq : parse_single_quote site s q with ⟨s1, r1⟩
    rw [hq] at hst1 hnod1 hok1
    dsimp only at hst1 hnod1 hok1
    cases r1 with
    | error e =>
      have hres : parse_quotes_list site (q :: rest) s = (s1, .error e) := by
        simp [parse_quotes_list, hq]
      refine ⟨⟨tex1, ex1, by rw [hres]; exact hst1,
        fun u hu => ⟨q, by simp, htex1 u hu⟩⟩, ?_, ?_⟩
      · intro hn; rw [hres]; exact hnod1 hn
      · intro quotes hqq; rw [hres] at hqq; simp at hqq
    | ok quote =>
      obtain ⟨hq_eq, hq_ok, hq_auth⟩ := hok1 quote rfl
      have hc1 : s1.cache = s.cache ++ ex1 := by rw [hst1]
      obtain ⟨⟨tex2, ex2, hst2, htex2⟩, hnod2, hmem2⟩ := ih s1
      rcases hr : parse_quotes_list site rest s1 with ⟨s2, r2⟩
      rw [hr] at hst2 hnod2 hmem2
      dsimp only at hst2 hnod2 hmem2
      have hc2 : s2.cache = s1.cache ++ ex2 := by rw [hst2]
      rw [hst1] at hst2
      dsimp only at hst2
      have hkeys2 : cacheKeys s2.cache = cacheKeys s1.cache ++ cacheKeys ex2 := by
        rw [hc2]; exact cacheKeys_append _ _
      cases r2 with
      | error e =>
        have hres : parse_quotes_list site (q :: rest) s = (s2, .error e) := by
          simp [parse_quotes_list, hq, hr]
        refine ⟨⟨tex1 ++ tex2, ex1 ++ ex2, ?_, ?_⟩, ?_, ?_⟩
        · rw [hres, hst2]; simp [List.append_assoc]
        · intro u hu
          rcases List.mem_append.mp hu with hu1 | hu2
          · exact ⟨q, by simp, htex1 u hu1⟩
          · obtain ⟨q', hq', he⟩ := htex2 u hu2
            exact ⟨q', by simp [hq'], he⟩
        · intro hn; rw [hres]; exact hnod2 (hnod1 hn)
        · intro quotes hqq; rw [hres] at hqq; simp at hqq
      | ok quotes =>
        have hres : parse_quotes_list site (q :: rest) s = (s2, .ok (quote :: quotes)) := by
          simp [parse_quotes_list, hq, hr]
        refine ⟨⟨tex1 ++ tex2, ex1 ++ ex2, ?_, ?_⟩, ?_, ?_⟩
        · rw [hres, hst2]; simp [List.append_assoc]
        · intro u hu
          rcases List.mem_append.mp hu with hu1 | hu2
          · exact ⟨q, by simp, htex1 u hu1⟩
          · obtain ⟨q', hq', he⟩ := htex2 u hu2
            exact ⟨q', by simp [hq'], he⟩
        · intro hn; rw [hres]; exact hnod2 (hnod1 hn)
        · intro quotes' hqq
          rw [hres] at hqq
          cases hqq
          obtain ⟨hmemA, hmemB⟩ := hmem2 quotes rfl
          constructor
          · intro qu hqu
            rw [hres]
            rcases List.mem_cons.mp hqu with hhead | htail
            · subst hhead
              have hgoal : qu.author ∈ cacheKeys s2.cache := by
                rw [hkeys2]; exact List.mem_append_left _ hq_auth
              exact hgoal
            · exact hmemA qu htail
          · intro k hk
            rw [hres] at hk
            have hk' : k ∈ cacheKeys s2.cache := hk
            rcases hmemB k hk' with hk1 | hk2
            · rw [hc1, cacheKeys_append] at hk1
              rcases List.mem_append.mp hk1 with hk3 | hk4
              · exact Or.inl hk3
              · refine Or.inr ⟨quote, by simp, ?_⟩
                obtain ⟨p, hp, hpk⟩ := List.mem_map.mp hk4
                have hp1 : p.1 = authorNameOf q := hex1 p hp
                rw [hq_eq]
                show (containerQuote q).author = k
                rw [← hpk, hp1]
                rfl
            · obtain ⟨qu, hqu, hquk⟩ := hk2
              exact Or.inr ⟨qu, by simp [hqu], hquk⟩

theorem get_quotes_loop_run (site : Site) (fuel : Nat) :
    ∀ (soup : Soup) (acc : List Quote) (page_num : Nat) (s s' : RunState)
      (r : Except ScrapeError (List Quote)),
      get_quotes_loop site fuel soup acc page_num s = some (s', r) →
      (∃ ex, s'.cache = s.cache ++ ex) ∧
      ((cacheKeys s.cache).Nodup → (cacheKeys s'.cache).Nodup) ∧
      (∀ quotes, r = .ok quotes →
        ∃ rest, quotes = acc ++ rest ∧
        (∀ quote, quote ∈ rest → quote.author ∈ cacheKeys s'.cache) ∧
        (∀ k, k ∈ cacheKeys s'.cache →
          k ∈ cacheKeys s.cache ∨ ∃ quote, quote ∈ rest ∧ quote.author = k)) := by
  induction fuel with
  | zero =>
    intro soup acc page_num s s' r h
    cases hnext : is_next_page soup with
    | true => rw [get_quotes_loop] at h; rw [hnext] at h; simp at h
    | false =>
      rw [get_quotes_loop] at h; rw [hnext] at h
      simp only [Bool.false_eq_true, if_false, Option.some.injEq] at h
      injection h with hs hr
      subst hs; subst hr
      refine ⟨⟨[], by simp⟩, fun hn => hn, ?_⟩
      intro quotes hq
      cases hq
      exact ⟨[], by simp, fun _ hq' => absurd hq' (List.not_mem_nil _),
        fun k hk => Or.inl hk⟩
  | succ fuel ih =>
    intro soup acc page_num s s' r h
    cases hnext : is_next_page soup with
    | false =>
      rw [get_quotes_loop] at h; rw [hnext] at h
      simp only [Bool.false_eq_true, if_false, Option.some.injEq] at h
      injection h with hs hr
      subst hs; subst hr
      refine ⟨⟨[], by simp⟩, fun hn => hn, ?_⟩
      intro quotes hq
      cases hq
      exact ⟨[], by simp, fun _ hq' => absurd hq' (List.not_mem_nil _),
        fun k hk => Or.inl hk⟩
    | true =>
      rw [get_quotes_loop] at h; rw [hnext] at h
      simp only [if_true] at h
      cases hsite : site (urljoin BASE_URL ("page/" ++ toString (page_num + 1) ++ "/")) with
      | netFailure =>
        simp only [requests_get, hsite] at h
        simp only [Option.some.injEq] at h
        injection h with hs hr
        subst hs; subst hr
        refine ⟨⟨[], by simp⟩, fun hn => hn, ?_⟩
        intro quotes hq
        cases hq
      | response st soup2 =>
        simp only [requests_get, hsite, get_single_page_quotes] at h
        obtain ⟨⟨tex2, ex2, hst2, _⟩, hnod2, hmem2⟩ :=
          parse_quotes_list_run site soup2.quotes
            { s with trace := s.trace ++
                [urljoin BASE_URL ("page/" ++ toString (page_num + 1) ++ "/")] }
        rcases hpl : parse_quotes_list site soup2.quotes
            { s with trace := s.trace ++
                [urljoin BASE_URL ("page/" ++ toString (page_num + 1) ++ "/")] } with ⟨s2, r2⟩
        rw [hpl] at h hst2 hnod2 hmem2
        dsimp only at hst2 hnod2 hmem2
        have hc2 : s2.cache = s.cache ++ ex2 := by rw [hst2]
        cases r2 with
        | error e =>
          simp only [Option.some.injEq] at h
          injection h with hs hr
          subst hs; subst hr
          refine ⟨⟨ex2, hc2⟩, ?_, ?_⟩
          · intro hn
            exact hnod2 (by simpa using hn)
          · intro quotes hq
            cases hq
        | ok qs =>
          obtain ⟨hext3, hnod3, hmem3⟩ := ih soup2 (acc ++ qs) (page_num + 1) s2 s' r h
          obtain ⟨ex3, hc3⟩ := hext3
          refine ⟨⟨ex2 ++ ex3, by rw [hc3, hc2, List.append_assoc]⟩, ?_, ?_⟩
          · intro hn
            exact hnod3 (hnod2 (by simpa using hn))
          · intro quotes hq
            obtain ⟨rest3, hqeq, hmemA3, hmemB3⟩ := hmem3 quotes hq
            obtain ⟨hmemA2, hmemB2⟩ := hmem2 qs rfl
            refine ⟨qs ++ rest3, by rw [hqeq, List.append_assoc], ?_, ?_⟩
            · intro quote hquote
              rcases List.mem_append.mp hquote with hq1 | hq2
              · have : quote.author ∈ cacheKeys s2.cache := hmemA2 quote hq1
                rw [hc3, cacheKeys_append]
                exact List.mem_append_left _ this
              · exact hmemA3 quote hq2
            · intro k hk
              rcases hmemB3 k hk with hk1 | hk2
              · rcases hmemB2 k hk1 with hk3 | hk4
                · exact Or.inl (by simpa using hk3)
                · obtain ⟨quote, hq1, hq2⟩ := hk4
                  exact Or.inr ⟨quote, List.mem_append_left _ hq1, hq2⟩
              · obtain ⟨quote, hq1, hq2⟩ := hk2
                exact Or.inr ⟨quote, List.mem_append_right _ hq1, hq2⟩

theorem get_quotes_run (site : Site) (fuel : Nat) (s s' : RunState)
    (r : Except ScrapeError (List Quote))
    (h : get_quotes site fuel s = some (s', r)) :
    (∃ ex, s'.cache = s.cache ++ ex) ∧
    ((cacheKeys s.cache).Nodup → (cacheKeys s'.cache).Nodup) ∧
    (∀ quotes, r = .ok quotes →
      (∀ quote, quote ∈ quotes → quote.author ∈ cacheKeys s'.cache) ∧
      (∀ k, k ∈ cacheKeys s'.cache →
        k ∈ cacheKeys s.cache ∨ ∃ quote, quote ∈ quotes ∧ quote.author = k)) := by
  rw [get_quotes] at h
  cases hsite : site BASE_URL with
  | netFailure =>
    simp only [requests_get, hsite, Option.some.injEq] at h
    injection h with hs hr
    subst hs; subst hr
    refine ⟨⟨[], by simp⟩, fun hn => hn, ?_⟩
    intro quotes hq
    cases hq
  | response st soup =>
    simp only [requests_get, hsite, get_single_page_quotes] at h
    obtain ⟨⟨tex2, ex2, hst2, _⟩, hnod2, hmem2⟩ :=
      parse_quotes_list_run site soup.quotes
        { s with trace := s.trace ++ [BASE_URL] }
    rcases hpl : parse_quotes_list site soup.quotes
        { s with trace := s.trace ++ [BASE_URL] } with ⟨s2, r2⟩
    rw [hpl] at h hst2 hnod2 hmem2
    dsimp only at hst2 hnod2 hmem2
    have hc2 : s2.cache = s.cache ++ ex2 := by rw [hst2]
    cases r2 with
    | error e =>
      simp only [Option.some.injEq] at h
      injection h with hs hr
      subst hs; subst hr
      refine ⟨⟨ex2, hc2⟩, ?_, ?_⟩
      · intro hn
        exact hnod2 (by simpa using hn)
      · intro quotes hq
        cases hq
    | ok acc =>
      obtain ⟨hext3, hnod3, hmem3⟩ := get_quotes_loop_run site fuel soup acc 1 s2 s' r h
      obtain ⟨ex3, hc3⟩ := hext3
      refine ⟨⟨ex2 ++ ex3, by rw [hc3, hc2, List.append_assoc]⟩, ?_, ?_⟩
      · intro hn
        exact hnod3 (hnod2 (by simpa using hn))
      · intro quotes hq
        obtain ⟨rest3, hqeq, hmemA3, hmemB3⟩ := hmem3 quotes hq
        obtain ⟨hmemA2, hmemB2⟩ := hmem2 acc rfl
        subst hqeq
        refine ⟨?_, ?_⟩
        · intro quote hquote
          rcases List.mem_append.mp hquote with hq1 | hq2
          · have : quote.author ∈ cacheKeys s2.cache := hmemA2 quote hq1
            rw [hc3, cacheKeys_append]
            exact List.mem_append_left _ this
          · exact hmemA3 quote hq2
        · intro k hk
          rcases hmemB3 k hk with hk1 | hk2
          · rcases hmemB2 k hk1 with hk3 | hk4
            · exact Or.inl (by simpa using hk3)
            · obtain ⟨quote, hq1, hq2⟩ := hk4
              exact Or.inr ⟨quote, List.mem_append_left _ hq1, hq2⟩
          · obtain ⟨quote, hq1, hq2⟩ := hk2
            exact Or.inr ⟨quote, List.mem_append_right _ hq1, hq2⟩

/-! ### Success path: well-formed containers with resolvable authors -/

theorem servesSoup_elim {site : Site} {url : String} {soup : Soup}
    (h : servesSoup site url soup = true) :
    ∃ st, site url = .response st soup := by
  unfold servesSoup at h
  cases hs : site url with
  | netFailure => rw [hs] at h; simp at h
  | response st s2 =>
    rw [hs] at h
    simp only [decide_eq_true_eq] at h
    exact ⟨st, by rw [h]⟩

theorem parse_single_author_ok (site : Site) (s : RunState) (name url : String)
    (h : (s.cache.lookup name).isSome = true ∨
      authorGoodAt site (urljoin BASE_URL url) = true) :
    ∃ tex ex,
      parse_single_author site s name url =
        ({ trace := s.trace ++ tex, cache := s.cache ++ ex }, .ok ()) ∧
      (∀ u ∈ tex, u = urljoin BASE_URL url) := by
  rcases parse_single_author_cases site s name url with
    ⟨hs, hh⟩ | ⟨hm, ⟨hnet, hh⟩ | ⟨st, soup, hsite,
      ⟨hmissing, hh⟩ | ⟨t, bd, bl, d, _, _, _, _, hh⟩⟩⟩
  · exact ⟨[], [], by simpa using hh, by simp⟩
  · rcases h with h | h
    · cases hl : s.cache.lookup name with
      | none => rw [hl] at h; simp at h
      | some v => rw [hl] at hm; simp at hm
    · rw [authorGoodAt, hnet] at h; simp at h
  · rcases h with h | h
    · cases hl : s.cache.lookup name with
      | none => rw [hl] at h; simp at h
      | some v => rw [hl] at hm; simp at hm
    · simp only [authorGoodAt, hsite, Bool.and_eq_true] at h
      rcases hmissing with hm1 | hm1 | hm1 | hm1 <;> rw [hm1] at h <;> simp at h
  · exact ⟨[urljoin BASE_URL url], [(name, ⟨t, bd, bl, d⟩)], hh, by simp⟩

theorem parse_single_quote_ok (site : Site) (s : RunState) (q : QuoteSoup)
    (hok : containerOk q = true)
    (hres : (s.cache.lookup (authorNameOf q)).isSome = true ∨
      authorGoodAt site (urljoin BASE_URL (containerHref q)) = true) :
    ∃ tex ex,
      parse_single_quote site s q =
        ({ trace := s.trace ++ tex, cache := s.cache ++ ex },
         .ok (containerQuote q)) ∧
      (∀ u ∈ tex, u = urljoin BASE_URL (containerHref q)) := by
  rw [containerOk] at hok
  simp only [Bool.and_eq_true, Option.isSome_iff_exists] at hok
  obtain ⟨⟨⟨name, ha⟩, ⟨href, hb⟩⟩, ⟨txt, ht⟩⟩ := hok
  have hname : authorNameOf q = name := by simp [authorNameOf, ha]
  have hhref : containerHref q = href := by simp [containerHref, hb]
  have hro : hrefOf q.anchor = .ok href := by rw [hrefOf_eq, hb]
  rw [hname, hhref] at hres
  obtain ⟨tex, ex, hpa, htex⟩ := parse_single_author_ok site s name href hres
  refine ⟨tex, ex, ?_, fun u hu => by rw [hhref]; exact htex u hu⟩
  simp only [parse_single_quote, ha, textOf, hro, hpa, ht]
  simp [containerQuote, ha, ht, authorNameOf]

theorem parse_quotes_list_ok (site : Site) (qs : List QuoteSoup) :
    ∀ s : RunState,
      (∀ q ∈ qs, containerOk q = true ∧
        ((s.cache.lookup (authorNameOf q)).isSome = true ∨
         authorGoodAt site (urljoin BASE_URL (containerHref q)) = true)) →
      ∃ tex ex,
        parse_quotes_list site qs s =
          ({ trace := s.trace ++ tex, cache := s.cache ++ ex },
           .ok (qs.map containerQuote)) ∧
        (∀ u ∈ tex, ∃ q, q ∈ qs ∧ u = urljoin BASE_URL (containerHref q)) := by
  induction qs with
  | nil =>
    intro s _
    exact ⟨[], [], by simp [parse_quotes_list], by simp⟩
  | cons q rest ih =>
    intro s hall
    obtain ⟨hok, hres⟩ := hall q (by simp)
    obtain ⟨tex1, ex1, hq, htex1⟩ := parse_single_quote_ok site s q hok hres
    obtain ⟨tex2, ex2, hrest, htex2⟩ :=
      ih { trace := s.trace ++ tex1, cache := s.cache ++ ex1 } (by
        intro q' hq'
        obtain ⟨hok', hres'⟩ := hall q' (by simp [hq'])
        refine ⟨hok', ?_⟩
        rcases hres' with hres' | hres'
        · exact Or.inl (lookup_isSome_append _ _ _ hres')
        · exact Or.inr hres')
    refine ⟨tex1 ++ tex2, ex1 ++ ex2, ?_, ?_⟩
    · simp only [parse_quotes_list, hq, hrest]
      simp [List.append_assoc]
    · intro u hu
      rcases List.mem_append.mp hu with hu1 | hu2
      · exact ⟨q, by simp, htex1 u hu1⟩
      · obtain ⟨q', hq', he⟩ := htex2 u hu2
        exact ⟨q', by simp [hq'], he⟩

theorem get_quotes_loop_terminal (site : Site) (fuel : Nat) (soup : Soup)
    (acc : List Quote) (page_num : Nat) (s : RunState)
    (h : is_next_page soup = false) :
    get_quotes_loop site fuel soup acc page_num s = some (s, .ok acc) := by
  cases fuel with
  | zero => rw [get_quotes_loop, h]; simp
  | succ fuel => rw [get_quotes_loop, h]; simp

theorem get_quotes_loop_chain (site : Site) (pages : List Soup)
    (hserve : servesChain site pages) (hok : pagesAllOk site pages) (fuel : Nat) :
    ∀ (k : Nat) (hk : k < pages.length) (s : RunState) (acc : List Quote),
      pages.length - (k + 1) ≤ fuel →
      ∃ s', get_quotes_loop site fuel (pages.get ⟨k, hk⟩) acc (k + 1) s =
          some (s', .ok (acc ++
            ((pages.drop (k + 1)).map (fun p => p.quotes.map containerQuote)).flatten)) ∧
        (∃ ex, s'.cache = s.cache ++ ex) ∧
        (∃ tr, s'.trace = s.trace ++ tr ∧
          ∀ f : String → Bool,
            (∀ i, k + 1 ≤ i → i < pages.length → f (pageUrl (i + 1)) = true) →
            (∀ p ∈ pages, ∀ q ∈ p.quotes,
              f (urljoin BASE_URL (containerHref q)) = false) →
            tr.filter f = chainUrls (k + 2) (pages.length - (k + 1))) := by
  induction fuel with
  | zero =>
    intro k hk s acc hfuel
    have hklen : ¬ (k + 1 < pages.length) := by omega
    have hlen : k + 1 = pages.length := by omega
    have hnext : is_next_page (pages.get ⟨k, hk⟩) = false := by
      rw [is_next_page, hserve.2 k hk]
      simp [hklen]
    refine ⟨s, ?_, ⟨[], by simp⟩, ⟨[], by simp, ?_⟩⟩
    · rw [get_quotes_loop_terminal site 0 _ acc (k + 1) s hnext]
      rw [hlen, List.drop_length]
      simp
    · intro f _ _
      rw [show pages.length - (k + 1) = 0 by omega]
      simp [chainUrls]
  | succ fuel ih =>
    intro k hk s acc hfuel
    by_cases hklen : k + 1 < pages.length
    · -- a further page follows
      have hnext : is_next_page (pages.get ⟨k, hk⟩) = true := by
        rw [is_next_page, hserve.2 k hk]
        simp [hklen]
      obtain ⟨st, hsite⟩ := servesSoup_elim (hserve.1 (k + 1) hklen)
      have hpu : pageUrl (k + 1 + 1) =
          urljoin BASE_URL ("page/" ++ toString (k + 1 + 1) ++ "/") := by
        rw [pageUrl, if_neg (by omega)]
      rw [hpu] at hsite
      obtain ⟨tex2, ex2, hpl, htex2⟩ :=
        parse_quotes_list_ok site (pages.get ⟨k + 1, hklen⟩).quotes
          { trace := s.trace ++ [urljoin BASE_URL ("page/" ++ toString (k + 1 + 1) ++ "/")],
            cache := s.cache }
          (by
            intro q hq
            obtain ⟨hco, hgood⟩ :=
              hok (pages.get ⟨k + 1, hklen⟩) (pages.get_mem _ _) q hq
            exact ⟨hco, Or.inr hgood⟩)
      dsimp only at hpl
      obtain ⟨s', hloop, ⟨ex3, hc3⟩, ⟨tr3, htr3, hfil3⟩⟩ :=
        ih (k + 1) hklen
          { trace := (s.trace ++
              [urljoin BASE_URL ("page/" ++ toString (k + 1 + 1) ++ "/")]) ++ tex2,
            cache := s.cache ++ ex2 }
          (acc ++ (pages.get ⟨k + 1, hklen⟩).quotes.map containerQuote)
          (by omega)
      dsimp only at hc3 htr3
      refine ⟨s', ?_, ⟨ex2 ++ ex3, by rw [hc3, List.append_assoc]⟩,
        ⟨[urljoin BASE_URL ("page/" ++ toString (k + 1 + 1) ++ "/")] ++ (tex2 ++ tr3),
         by rw [htr3]; simp [List.append_assoc], ?_⟩⟩
      · rw [get_quotes_loop]
        simp only [hnext, if_true, requests_get, hsite, get_single_page_quotes, hpl]
        rw [hloop]
        have hdrop : pages.drop (k + 1) =
            pages.get ⟨k + 1, hklen⟩ :: pages.drop (k + 1 + 1) := by
          rw [List.drop_eq_getElem_cons hklen]
          simp [List.get_eq_getElem]
        rw [hdrop]
        simp only [List.map_cons, List.flatten_cons, List.append_assoc]
      · intro f hf hfa
        have hfurl : f (urljoin BASE_URL ("page/" ++ toString (k + 1 + 1) ++ "/")) = true := by
          rw [← hpu]
          exact hf (k + 1) (by omega) hklen
        have hftex2 : tex2.filter f = [] := by
          rw [List.filter_eq_nil_iff]
          intro u hu
          obtain ⟨q, hq, he⟩ := htex2 u hu
          rw [he]
          simp [hfa (pages.get ⟨k + 1, hklen⟩) (pages.get_mem _ _) q hq]
        have hftr3 : tr3.filter f = chainUrls (k + 1 + 2) (pages.length - (k + 1 + 1)) :=
          hfil3 f (fun i hi1 hi2 => hf i (by omega) hi2) hfa
        rw [List.filter_append, List.filter_append, hftex2, hftr3]
        rw [List.filter, hfurl]
        rw [show pages.length - (k + 1) = (pages.length - (k + 1 + 1)) + 1 by omega,
          chainUrls]
        rw [show k + 1 + 1 = k + 2 by omega, show k + 2 + 1 = k + 1 + 2 by omega]
        simp
        rw [pageUrl, if_neg (by omega)]
    · -- final page of the chain
      have hlen : k + 1 = pages.length := by omega
      have hnext : is_next_page (pages.get ⟨k, hk⟩) = false := by
        rw [is_next_page, hserve.2 k hk]
        simp [hklen]
      refine ⟨s, ?_, ⟨[], by simp⟩, ⟨[], by simp, ?_⟩⟩
      · rw [get_quotes_loop_terminal site (fuel + 1) _ acc (k + 1) s hnext]
        rw [hlen, List.drop_length]
        simp
      · intro f _ _
        rw [show pages.length - (k + 1) = 0 by omega]
        simp [chainUrls]

theorem get_quotes_chain (site : Site) (pages : List Soup)
    (hserve : servesChain site pages) (hok : pagesAllOk site pages)
    (hne : pages ≠ []) (fuel : Nat) (hfuel : pages.length - 1 ≤ fuel)
    (s : RunState) :
    ∃ s', get_quotes site fuel s = some (s', .ok (chainQuotes pages)) ∧
      (∃ ex, s'.cache = s.cache ++ ex) ∧
      (∃ tr, s'.trace = s.trace ++ tr ∧
        ∀ f : String → Bool,
          (∀ i, i < pages.length → f (pageUrl (i + 1)) = true) →
          (∀ p ∈ pages, ∀ q ∈ p.quotes,
            f (urljoin BASE_URL (containerHref q)) = false) →
          tr.filter f = chainUrls 1 pages.length) := by
  have hk0 : 0 < pages.length := List.length_pos.mpr hne
  have hpu : pageUrl (0 + 1) = BASE_URL := by simp [pageUrl]
  obtain ⟨st, hsite⟩ := servesSoup_elim (hserve.1 0 hk0)
  rw [hpu] at hsite
  obtain ⟨tex0, ex0, hpl, htex0⟩ :=
    parse_quotes_list_ok site (pages.get ⟨0, hk0⟩).quotes
      { trace := s.trace ++ [BASE_URL], cache := s.cache }
      (by
        intro q hq
        obtain ⟨hco, hgood⟩ := hok (pages.get ⟨0, hk0⟩) (pages.get_mem _ _) q hq
        exact ⟨hco, Or.inr hgood⟩)
  dsimp only at hpl
  obtain ⟨s', hloop, ⟨ex3, hc3⟩, ⟨tr3, htr3, hfil3⟩⟩ :=
    get_quotes_loop_chain site pages hserve hok fuel 0 hk0
      { trace := (s.trace ++ [BASE_URL]) ++ tex0, cache := s.cache ++ ex0 }
      ((pages.get ⟨0, hk0⟩).quotes.map containerQuote)
      (by omega)
  rw [show (0 : Nat) + 1 = 1 from rfl] at hloop
  dsimp only at hc3 htr3
  refine ⟨s', ?_, ⟨ex0 ++ ex3, by rw [hc3, List.append_assoc]⟩,
    ⟨[BASE_URL] ++ (tex0 ++ tr3), by rw [htr3]; simp [List.append_assoc], ?_⟩⟩
  · rw [get_quotes]
    simp only [requests_get, hsite, get_single_page_quotes, hpl]
    rw [hloop]
    have hdrop : pages.drop 0 = pages.get ⟨0, hk0⟩ :: pages.drop 1 := by
      rw [List.drop_eq_getElem_cons hk0]
      simp [List.get_eq_getElem]
    have hpages : pages = pages.get ⟨0, hk0⟩ :: pages.drop 1 := by
      rw [← hdrop, List.drop_zero]
    rw [chainQuotes]
    conv_rhs => rw [hpages]
    simp only [List.map_cons, List.flatten_cons, List.append_assoc]
  · intro f hf hfa
    have hfurl : f BASE_URL = true := by
      rw [← hpu]
      exact hf 0 hk0
    have hftex0 : tex0.filter f = [] := by
      rw [List.filter_eq_nil_iff]
      intro u hu
      obtain ⟨q, hq, he⟩ := htex0 u hu
      rw [he]
      simp [hfa (pages.get ⟨0, hk0⟩) (pages.get_mem _ _) q hq]
    have hftr3 : tr3.filter f = chainUrls (0 + 2) (pages.length - (0 + 1)) :=
      hfil3 f (fun i hi1 hi2 => hf i hi2) hfa
    rw [List.filter_append, List.filter_append, hftex0, hftr3]
    rw [List.filter, hfurl]
    rw [show pages.length = (pages.length - 1) + 1 by omega, chainUrls]
    rw [show (0 : Nat) + 2 = 1 + 1 from rfl,
      show pages.length - (0 + 1) = (pages.length - 1 + 1) - 1 by omega]
    simp [hpu]

/-! ### Claims -/

/-- C3 (counterexample): the claim says a non-2xx response makes the fetch
fail and the run abort.  On `site404` the root listing answers with status
404, yet `get_quotes` completes successfully (with an empty quote list) and
`main_run` goes on to write both output files. -/
theorem C3_counterexample :
    site404 BASE_URL = .response 404 soupEmpty ∧
    get_quotes site404 0 initState =
      some ({ trace := [BASE_URL], cache := [] }, .ok []) ∧
    main_run site404 0 (fun _ => true) [] "quotes.csv" =
      some ([("quotes.csv", quotes_csv_rows []),
             ("author.csv", authors_csv_rows [])], .ok ()) :=
  ⟨rfl, rfl, rfl⟩

/-- C3 (amended): `requests.get` fails — always with `fetchError` — exactly
when the transport reports a network failure; a response is returned intact
whatever its status code, which the caller never inspects, so a non-2xx page
is processed like any other. -/
theorem C3_fetch_fails_iff_network_failure (site : Site) (s : RunState)
    (url : String) :
    ((requests_get site s url).2 = .error .fetchError ↔
      site url = .netFailure) ∧
    (∀ e, (requests_get site s url).2 = .error e → e = .fetchError) ∧
    (∀ st soup, site url = .response st soup →
      requests_get site s url =
        ({ s with trace := s.trace ++ [url] },
         .ok { status_code := st, soup := soup })) := by
  refine ⟨⟨?_, ?_⟩, ?_, ?_⟩
  · intro h
    cases hs : site url with
    | netFailure => rfl
    | response st soup => simp [requests_get, hs] at h
  · intro h
    simp [requests_get, h]
  · intro e h
    cases hs : site url with
    | netFailure => simp [requests_get, hs] at h; simp [h]
    | response st soup => simp [requests_get, hs] at h
  · intro st soup h
    simp [requests_get, h]

/-- C3 (witness): on `site404` the root URL yields a 404 response and
`requests_get` returns it as a success value. -/
theorem C3_witness :
    site404 BASE_URL = .response 404 soupEmpty ∧
    requests_get site404 initState BASE_URL =
      ({ trace := [BASE_URL], cache := [] },
       .ok { status_code := 404, soup := soupEmpty }) := by
  refine ⟨rfl, ?_⟩
  have h := (C3_fetch_fails_iff_network_failure site404 initState BASE_URL).2.2
    404 soupEmpty rfl
  simpa [initState] using h

/-- C6: when author resolution fails on a cache miss — network failure on
the profile fetch, or any of the four required fields absent — the error
propagates (`fetchError`, resp. `extractionError`) and the cache is exactly
what it was before the call: no partial `Author` entry is inserted. -/
theorem C6_no_partial_insertion (site : Site) (s : RunState) (name url : String) :
    (∀ s1 e, parse_single_author site s name url = (s1, .error e) →
      s1.cache = s.cache) ∧
    ((s.cache.lookup name).isNone = true →
      site (urljoin BASE_URL url) = .netFailure →
      (parse_single_author site s name url).2 = .error .fetchError) ∧
    ((s.cache.lookup name).isNone = true →
      ∀ st soup, site (urljoin BASE_URL url) = .response st soup →
      (soup.authorTitle = none ∨ soup.authorBornDate = none ∨
       soup.authorBornLocation = none ∨ soup.authorDescription = none) →
      (parse_single_author site s name url).2 = .error .extractionError) := by
  refine ⟨?_, ?_, ?_⟩
  · intro s1 e h
    rcases parse_single_author_cases site s name url with
      ⟨hs, hh⟩ | ⟨hm, ⟨hnet, hh⟩ | ⟨st1, soup1, hsite1,
        ⟨hmiss, hh⟩ | ⟨t, bd, bl, d, ht, hbd, hbl, hd, hh⟩⟩⟩
    · rw [hh] at h
      injection h with h1 h2
      cases h2
    · rw [hh] at h
      injection h with h1 h2
      rw [← h1]
    · rw [hh] at h
      injection h with h1 h2
      rw [← h1]
    · rw [hh] at h
      injection h with h1 h2
      cases h2
  · intro hm hnet
    rcases parse_single_author_cases site s name url with
      ⟨hs, hh⟩ | ⟨hm2, ⟨hnet2, hh⟩ | ⟨st1, soup1, hsite1, _⟩⟩
    · cases hl : s.cache.lookup name with
      | none => rw [hl] at hs; simp at hs
      | some v => rw [hl] at hm; simp at hm
    · rw [hh]
    · rw [hsite1] at hnet
      simp at hnet
  · intro hm st soup hsite hfield
    rcases parse_single_author_cases site s name url with
      ⟨hs, hh⟩ | ⟨hm2, ⟨hnet2, hh⟩ | ⟨st1, soup1, hsite1,
        ⟨hmiss, hh⟩ | ⟨t, bd, bl, d, ht, hbd, hbl, hd, hh⟩⟩⟩
    · cases hl : s.cache.lookup name with
      | none => rw [hl] at hs; simp at hs
      | some v => rw [hl] at hm; simp at hm
    · rw [hnet2] at hsite
      simp at hsite
    · rw [hh]
    · rw [hsite1] at hsite
      injection hsite with h1 h2
      subst h2
      rcases hfield with hf | hf | hf | hf
      · rw [hf] at ht; cases ht
      · rw [hf] at hbd; cases hbd
      · rw [hf] at hbl; cases hbl
      · rw [hf] at hd; cases hd

/-- C6 (witness): resolving "Alice" against a dead network fails with
`fetchError` and leaves the empty cache empty. -/
theorem C6_witness :
    (parse_single_author siteDead initState "Alice" "/author/Alice").1.cache =
      initState.cache ∧
    (parse_single_author siteDead initState "Alice" "/author/Alice").2 =
      .error .fetchError := by
  constructor
  · exact (C6_no_partial_insertion siteDead initState "Alice" "/author/Alice").1
      { trace := ["https://quotes.toscrape.com/author/Alice"], cache := [] }
      .fetchError rfl
  · exact (C6_no_partial_insertion siteDead initState "Alice" "/author/Alice").2.1
      (by decide) rfl

/-- C8: a fetch or extraction failure anywhere in the walk makes `main`
return that error with the file system exactly as it was — neither output
file has been opened, created or modified — and a diverging walk writes
nothing either; both writes happen only after the whole walk has
succeeded. -/
theorem C8_failure_aborts_before_output (site : Site) (fuel : Nat)
    (writable : String → Bool) (fs : FS) (output_csv_path : String) :
    (∀ s' e, get_quotes site fuel initState = some (s', .error e) →
      main_run site fuel writable fs output_csv_path = some (fs, .error e)) ∧
    (get_quotes site fuel initState = none →
      main_run site fuel writable fs output_csv_path = none) := by
  constructor
  · intro s' e h
    simp [main_run, h]
  · intro h
    simp [main_run, h]

/-- C8 (witness): on a dead network the walk fails at the root fetch and
`main` returns with the (empty) file system untouched. -/
theorem C8_witness :
    get_quotes siteDead 0 initState =
      some ({ trace := [BASE_URL], cache := [] }, .error .fetchError) ∧
    main_run siteDead 0 (fun _ => true) [] "quotes.csv" =
      some ([], .error .fetchError) :=
  ⟨rfl, (C8_failure_aborts_before_output siteDead 0 (fun _ => true) []
    "quotes.csv").1 { trace := [BASE_URL], cache := [] } .fetchError rfl⟩

theorem getFile_setFile (fs : FS) (p : String) (rows : List Row) :
    getFile (setFile fs p rows) p = some rows := by
  induction fs with
  | nil => simp [setFile, getFile]
  | cons e t ih =>
    obtain ⟨q, r⟩ := e
    by_cases h : q = p
    · simp [setFile, getFile, h]
    · simp [setFile, getFile, h, ih]

/-- C9: after a successful walk, `main` writes the quotes file and then the
authors file at the fixed, hard-coded path `"author.csv"` (the entry point
takes only the quotes path); the authors rows are the header
`name,born_date,born_location,description` in field declaration order
followed by exactly one row per cached author, in cache insertion
(first-seen) order. -/
theorem C9_authors_file (site : Site) (fuel : Nat) (writable : String → Bool)
    (fs : FS) (output_csv_path : String) (s' : RunState) (quotes : List Quote)
    (h : get_quotes site fuel initState = some (s', .ok quotes))
    (hw1 : writable output_csv_path = true)
    (hw2 : writable "author.csv" = true) :
    main_run site fuel writable fs output_csv_path =
      some (setFile (setFile fs output_csv_path (quotes_csv_rows quotes))
        "author.csv" (authors_csv_rows s'.cache), .ok ()) ∧
    authors_csv_rows s'.cache =
      AUTHOR_FIELDS.map Cell.str :: s'.cache.map (fun e => authorAstuple e.2) := by
  constructor
  · simp [main_run, h, write_quotes_to_csv, write_author_to_csv, hw1, hw2]
  · rfl

/-- C9 (witness): the one-page demo run writes "quotes.csv" and then
"author.csv", the latter holding the header plus Alice's single row. -/
theorem C9_witness :
    main_run demoSite 0 (fun _ => true) [] "quotes.csv" =
      some (setFile (setFile [] "quotes.csv" (quotes_csv_rows demoQuotes))
        "author.csv" (authors_csv_rows demoFinal.cache), .ok ()) ∧
    authors_csv_rows demoFinal.cache =
      AUTHOR_FIELDS.map Cell.str :: demoFinal.cache.map (fun e => authorAstuple e.2) :=
  C9_authors_file demoSite 0 (fun _ => true) [] "quotes.csv" demoFinal demoQuotes
    rfl rfl rfl

/-- C10: `main` writes the quotes file strictly before the authors file, so
when opening `"author.csv"` fails with an I/O error the quotes file has
already been written in full and is left intact — the two writes are not
atomic as a pair. -/
theorem C10_quotes_written_before_authors (site : Site) (fuel : Nat)
    (writable : String → Bool) (fs : FS) (output_csv_path : String)
    (s' : RunState) (quotes : List Quote)
    (h : get_quotes site fuel initState = some (s', .ok quotes))
    (hw1 : writable output_csv_path = true)
    (hw2 : writable "author.csv" = false) :
    main_run site fuel writable fs output_csv_path =
      some (setFile fs output_csv_path (quotes_csv_rows quotes), .error .ioError) ∧
    getFile (setFile fs output_csv_path (quotes_csv_rows quotes)) output_csv_path =
      some (quotes_csv_rows quotes) := by
  constructor
  · simp [main_run, h, write_quotes_to_csv, write_author_to_csv, hw1, hw2]
  · exact getFile_setFile fs output_csv_path _

/-- C10 (witness): with "author.csv" unwritable, the demo run ends in
`ioError` while "quotes.csv" holds the complete rows. -/
theorem C10_witness :
    main_run demoSite 0 (fun u => !(u == "author.csv")) [] "quotes.csv" =
      some (setFile [] "quotes.csv" (quotes_csv_rows demoQuotes), .error .ioError) ∧
    getFile (setFile [] "quotes.csv" (quotes_csv_rows demoQuotes)) "quotes.csv" =
      some (quotes_csv_rows demoQuotes) :=
  C10_quotes_written_before_authors demoSite 0 (fun u => !(u == "author.csv"))
    [] "quotes.csv" demoFinal demoQuotes rfl (by decide) (by decide)

/-- C5: in every run of the walk that returns successfully, each returned
quote's author corresponds to exactly one entry of the author cache —
resolution ran synchronously before the quote was produced, and the cache
holds no duplicate keys. -/
theorem C5_every_author_cached (site : Site) (fuel : Nat) (s' : RunState)
    (quotes : List Quote)
    (h : get_quotes site fuel initState = some (s', .ok quotes)) :
    ∀ quote ∈ quotes, s'.cache.countP (fun e => e.1 == quote.author) = 1 := by
  obtain ⟨_, hnod, hmem⟩ := get_quotes_run site fuel initState s' (.ok quotes) h
  obtain ⟨hmemA, _⟩ := hmem quotes rfl
  intro quote hq
  have hmemk : quote.author ∈ cacheKeys s'.cache := hmemA quote hq
  have hnodk : (cacheKeys s'.cache).Nodup := hnod (by simp [initState, cacheKeys])
  rw [countP_key_eq_count]
  exact List.count_eq_one_of_mem hnodk hmemk

/-- C5 (witness): in the demo run both quotes name "Alice", and she has
exactly one cache entry at the end. -/
theorem C5_witness :
    get_quotes demoSite 0 initState = some (demoFinal, .ok demoQuotes) ∧
    demoFinal.cache.countP (fun e => e.1 == "Alice") = 1 :=
  ⟨rfl, C5_every_author_cached demoSite 0 demoFinal demoQuotes rfl
    { text := "T1", author := "Alice", tags := ["t1", "t2"] } (by decide)⟩

/-- C4: author resolution is idempotent — a cache hit performs no fetch and
returns the state unchanged, any single resolution keeps the cache keys
duplicate-free, and after a successful walk from the empty cache each author
name has exactly one cache entry (hence one authors-file row) precisely when
some quote references it, no matter how many quotes share it. -/
theorem C4_cache_idempotent :
    (∀ (site : Site) (s : RunState) (name url : String),
      (s.cache.lookup name).isSome = true →
      parse_single_author site s name url = (s, .ok ())) ∧
    (∀ (site : Site) (s : RunState) (name url : String),
      (cacheKeys s.cache).Nodup →
      (cacheKeys (parse_single_author site s name url).1.cache).Nodup) ∧
    (∀ (site : Site) (fuel : Nat) (s' : RunState) (quotes : List Quote),
      get_quotes site fuel initState = some (s', .ok quotes) →
      ∀ name, s'.cache.countP (fun e => e.1 == name) =
        (if quotes.any (fun q => q.author == name) then 1 else 0)) := by
  refine ⟨parse_single_author_hit, parse_single_author_nodup, ?_⟩
  intro site fuel s' quotes h name
  obtain ⟨_, hnod, hmem⟩ := get_quotes_run site fuel initState s' (.ok quotes) h
  obtain ⟨hmemA, hmemB⟩ := hmem quotes rfl
  have hnodk : (cacheKeys s'.cache).Nodup := hnod (by simp [initState, cacheKeys])
  rw [countP_key_eq_count]
  cases hany : quotes.any (fun q => q.author == name) with
  | true =>
    simp only [if_true]
    rw [List.any_eq_true] at hany
    obtain ⟨q, hq, hqa⟩ := hany
    have hqa' : q.author = name := by simpa using hqa
    exact List.count_eq_one_of_mem hnodk (hqa' ▸ hmemA q hq)
  | false =>
    simp only [Bool.false_eq_true, if_false]
    rw [List.count_eq_zero]
    intro hmemk
    rcases hmemB name hmemk with h1 | h2
    · simp [initState, cacheKeys] at h1
    · obtain ⟨q, hq, hqa⟩ := h2
      rw [List.any_eq_false] at hany
      have := hany q hq
      simp [hqa] at this

/-- C4 (witness): a second resolution of the already-cached "Alice" is a
no-op, and after the demo run "Alice" has exactly one row while the
unreferenced "Bob" has none. -/
theorem C4_witness :
    parse_single_author demoSite demoFinal "Alice" "/author/Elsewhere" =
      (demoFinal, .ok ()) ∧
    demoFinal.cache.countP (fun e => e.1 == "Alice") = 1 ∧
    demoFinal.cache.countP (fun e => e.1 == "Bob") = 0 := by
  refine ⟨C4_cache_idempotent.1 demoSite demoFinal "Alice" "/author/Elsewhere"
    (by decide), ?_, ?_⟩
  · have h2 := C4_cache_idempotent.2.2 demoSite 0 demoFinal demoQuotes rfl "Alice"
    rw [(by decide : (demoQuotes.any fun q => q.author == "Alice") = true)] at h2
    simpa using h2
  · have h2 := C4_cache_idempotent.2.2 demoSite 0 demoFinal demoQuotes rfl "Bob"
    rw [(by decide : (demoQuotes.any fun q => q.author == "Bob") = false)] at h2
    simpa using h2

/-- C7 (counterexample): the claim's "extraction succeeds whenever all
required nodes are present" is false — on `pageOneGood` every container
carries all required nodes, yet extraction fails because the author page
fetch fails on the dead network. -/
theorem C7_counterexample :
    (∀ q ∈ pageOneGood.quotes, containerOk q = true) ∧
    get_single_page_quotes siteDead initState pageOneGood =
      ({ trace := ["https://quotes.toscrape.com/author/Alice"], cache := [] },
       .error .fetchError) :=
  ⟨by decide, rfl⟩

/-- C7 (amended): extraction of a container fails whenever a required node
(text, author name, or the author link's href) is absent — though the
surfaced error is the author resolution's when that runs and fails first —
and when every container has all required nodes AND every author resolves
(cache hit or well-formed author page), extraction succeeds with exactly one
quote per container. -/
theorem C7_extraction_errors (site : Site) (s : RunState) :
    (∀ q : QuoteSoup, containerOk q = false →
      ∃ s1 e, parse_single_quote site s q = (s1, .error e)) ∧
    (∀ page_soup : Soup,
      (∀ q ∈ page_soup.quotes, containerOk q = true ∧
        ((s.cache.lookup (authorNameOf q)).isSome = true ∨
         authorGoodAt site (urljoin BASE_URL (containerHref q)) = true)) →
      ∃ s1, get_single_page_quotes site s page_soup =
        (s1, .ok (page_soup.quotes.map containerQuote)) ∧
        (page_soup.quotes.map containerQuote).length = page_soup.quotes.length) := by
  constructor
  · intro q hq
    obtain ⟨tex, ex, hst, htex, hex, hnod, hok⟩ := parse_single_quote_run site s q
    rcases hr : parse_single_quote site s q with ⟨s1, r⟩
    cases r with
    | error e => exact ⟨s1, e, rfl⟩
    | ok quote =>
      rw [hr] at hok
      obtain ⟨_, hco, _⟩ := hok quote rfl
      rw [hq] at hco
      cases hco
  · intro page_soup hall
    obtain ⟨tex, ex, heq, _⟩ := parse_quotes_list_ok site page_soup.quotes s hall
    exact ⟨_, heq, by simp⟩

/-- C7 (witness): a container missing every required node fails, and the
well-formed demo page extracts exactly one quote per container. -/
theorem C7_witness :
    containerOk (⟨none, none, none, []⟩ : QuoteSoup) = false ∧
    (∃ s1 e, parse_single_quote demoSite initState
      (⟨none, none, none, []⟩ : QuoteSoup) = (s1, .error e)) ∧
    (∃ s1, get_single_page_quotes demoSite initState rootAB =
      (s1, .ok (rootAB.quotes.map containerQuote)) ∧
      (rootAB.quotes.map containerQuote).length = rootAB.quotes.length) := by
  refine ⟨by decide,
    (C7_extraction_errors demoSite initState).1 _ (by decide),
    (C7_extraction_errors demoSite initState).2 rootAB (by
      unfold authorNameOf containerHref
      decide)⟩

theorem pageUrl_mem_chainUrls : ∀ (cnt st j : Nat), st ≤ j → j < st + cnt →
    pageUrl j ∈ chainUrls st cnt := by
  intro cnt
  induction cnt with
  | zero => intro st j h1 h2; omega
  | succ cnt ih =>
    intro st j h1 h2
    rw [chainUrls]
    rcases Nat.eq_or_lt_of_le h1 with he | hlt
    · rw [← he]
      exact List.mem_cons_self _ _
    · exact List.mem_cons_of_mem _ (ih (st + 1) j hlt (by omega))

/-- C1: over any finite chain of listing pages with well-formed containers
and resolvable authors, a run completes successfully returning the quotes in
page-then-document (crawl) order, and the quotes CSV is the header row
followed by exactly one data row per quote in that order, so its data-row
count is the total number of quote containers across all traversed pages. -/
theorem C1_quotes_output (site : Site) (pages : List Soup) (fuel : Nat)
    (hserve : servesChain site pages) (hok : pagesAllOk site pages)
    (hne : pages ≠ []) (hfuel : pages.length - 1 ≤ fuel) :
    ∃ s', get_quotes site fuel initState = some (s', .ok (chainQuotes pages)) ∧
      quotes_csv_rows (chainQuotes pages) =
        QUOTE_FIELDS.map Cell.str ::
          (pages.map (fun p =>
            p.quotes.map (fun q => quoteAstuple (containerQuote q)))).flatten ∧
      (quotes_csv_rows (chainQuotes pages)).length =
        1 + (pages.map (fun p => p.quotes.length)).sum := by
  obtain ⟨s', h1, _, _⟩ := get_quotes_chain site pages hserve hok hne fuel hfuel initState
  refine ⟨s', h1, ?_, ?_⟩
  · rw [quotes_csv_rows, chainQuotes]
    simp [List.map_flatten, List.map_map, Function.comp_def]
  · rw [quotes_csv_rows, chainQuotes]
    simp [List.length_flatten, List.map_map, Function.comp_def, Nat.add_comm]

/-- C1 (witness): on the concrete two-page chain the walk returns both
quotes in order and the CSV is the header plus one row per container. -/
theorem C1_witness :
    ∃ s', get_quotes chainSite 1 initState =
        some (s', .ok (chainQuotes chainPages)) ∧
      quotes_csv_rows (chainQuotes chainPages) =
        QUOTE_FIELDS.map Cell.str ::
          (chainPages.map (fun p =>
            p.quotes.map (fun q => quoteAstuple (containerQuote q)))).flatten ∧
      (quotes_csv_rows (chainQuotes chainPages)).length =
        1 + (chainPages.map (fun p => p.quotes.length)).sum :=
  C1_quotes_output chainSite chainPages 1 ⟨by decide, by decide⟩
    (by unfold pagesAllOk; decide) (by decide) (by decide)

theorem charVal_digitChar : ∀ d, d < 10 → charVal (Nat.digitChar d) = d := by
  decide

theorem toDigitsCore_eq_digitsList : ∀ (f n : Nat) (l : List Char), n < f →
    Nat.toDigitsCore 10 f n l = digitsList n ++ l := by
  intro f
  induction f with
  | zero => intro n l h; omega
  | succ f ih =>
    intro n l h
    simp only [Nat.toDigitsCore]
    by_cases h10 : n / 10 = 0
    · rw [if_pos h10]
      have hn10 : n < 10 := by omega
      rw [digitsList, dif_pos hn10, Nat.mod_eq_of_lt hn10]
      rfl
    · rw [if_neg h10]
      have hlt : n / 10 < f := by
        have h1 : n / 10 < n := Nat.div_lt_self (by omega) (by omega)
        omega
      rw [ih (n / 10) (Nat.digitChar (n % 10) :: l) hlt]
      conv_rhs => rw [digitsList]
      rw [dif_neg (by omega : ¬ n < 10)]
      simp

theorem foldl_digitsList : ∀ (n : Nat), ∀ (a : Nat),
    (digitsList n).foldl (fun acc c => acc * 10 + charVal c) a =
      a * 10 ^ (digitsList n).length + n := by
  intro n
  induction n using Nat.strong_induction_on with
  | _ n ih =>
    intro a
    by_cases h10 : n < 10
    · rw [digitsList, dif_pos h10]
      simp [List.foldl, charVal_digitChar n h10]
    · rw [digitsList, dif_neg h10]
      rw [List.foldl_append]
      rw [ih (n / 10) (Nat.div_lt_self (by omega) (by omega)) a]
      simp only [List.foldl, List.length_append, List.length_cons,
        List.length_nil]
      rw [charVal_digitChar (n % 10) (by omega)]
      calc (a * 10 ^ (digitsList (n / 10)).length + n / 10) * 10 + n % 10
          = a * (10 ^ (digitsList (n / 10)).length * 10) +
            (n / 10 * 10 + n % 10) := by ring
        _ = a * 10 ^ ((digitsList (n / 10)).length + (0 + 1)) + n := by
            rw [Nat.div_add_mod' n 10]
            ring

theorem digitsList_inj (m n : Nat) (h : digitsList m = digitsList n) : m = n := by
  have hm := foldl_digitsList m 0
  have hn := foldl_digitsList n 0
  rw [h] at hm
  simp only [Nat.zero_mul, Nat.zero_add] at hm hn
  omega

theorem nat_repr_inj (m n : Nat) (h : Nat.repr m = Nat.repr n) : m = n := by
  rw [Nat.repr, Nat.repr, Nat.toDigits, Nat.toDigits] at h
  rw [toDigitsCore_eq_digitsList (m + 1) m [] (by omega)] at h
  rw [toDigitsCore_eq_digitsList (n + 1) n [] (by omega)] at h
  simp only [List.append_nil] at h
  have h2 : digitsList m = digitsList n := by
    have := congrArg String.data h
    simpa [List.asString] using this
  exact digitsList_inj m n h2

theorem pageUrl_inj : ∀ m n : Nat, 1 ≤ m → 1 ≤ n → pageUrl m = pageUrl n →
    m = n := by
  have hhead : ∀ t : String,
      ("page/" ++ t ++ "/").data.head? = some (Char.ofNat 112) := by
    intro t
    rw [String.data_append, String.data_append]
    rfl
  have hjoin : ∀ t : String,
      urljoin BASE_URL ("page/" ++ t ++ "/") = BASE_URL ++ ("page/" ++ t ++ "/") := by
    intro t
    rw [urljoin, if_neg]
    rw [hhead t]
    intro hc
    cases hc
  have hlen : ∀ t : String, (BASE_URL ++ ("page/" ++ t ++ "/")).length =
      BASE_URL.length + (t.length + 6) := by
    intro t
    simp [String.length_append, show ("page/" : String).length = 5 from rfl,
      show ("/" : String).length = 1 from rfl]
    omega
  intro m n hm hn h
  by_cases hm1 : m = 1
  · by_cases hn1 : n = 1
    · omega
    · exfalso
      rw [pageUrl, pageUrl, if_pos hm1, if_neg hn1, hjoin] at h
      have := congrArg String.length h
      rw [hlen] at this
      omega
  · by_cases hn1 : n = 1
    · exfalso
      rw [pageUrl, pageUrl, if_neg hm1, if_pos hn1, hjoin] at h
      have := congrArg String.length h
      rw [hlen] at this
      omega
    · rw [pageUrl, pageUrl, if_neg hm1, if_neg hn1, hjoin, hjoin] at h
      have hd := congrArg String.data h
      simp only [String.data_append] at hd
      have hd2 := List.append_cancel_left hd
      have hd3 := List.append_cancel_right hd2
      have hd4 := List.append_cancel_left hd3
      have hs : toString m = toString n := String.ext hd4
      exact nat_repr_inj m n hs

theorem mem_chainUrls : ∀ (cnt st : Nat) (u : String), u ∈ chainUrls st cnt →
    ∃ j, st ≤ j ∧ j < st + cnt ∧ u = pageUrl j := by
  intro cnt
  induction cnt with
  | zero => intro st u hu; rw [chainUrls] at hu; cases hu
  | succ cnt ih =>
    intro st u hu
    rw [chainUrls] at hu
    rcases List.mem_cons.mp hu with hu1 | hu2
    · exact ⟨st, by omega, by omega, hu1⟩
    · obtain ⟨j, hj1, hj2, hj3⟩ := ih (st + 1) u hu2
      exact ⟨j, by omega, by omega, hj3⟩

theorem chainUrls_nodup : ∀ (cnt st : Nat), 1 ≤ st → (chainUrls st cnt).Nodup := by
  intro cnt
  induction cnt with
  | zero => intro st _; rw [chainUrls]; exact List.nodup_nil
  | succ cnt ih =>
    intro st hst
    rw [chainUrls, List.nodup_cons]
    refine ⟨?_, ih (st + 1) (by omega)⟩
    intro hmem
    obtain ⟨j, hj1, hj2, hj3⟩ := mem_chainUrls cnt (st + 1) _ hmem
    have := pageUrl_inj st j (by omega) (by omega) hj3
    omega

/-- C2: over any finite chain, the walk terminates, returns the accumulated
quotes, and its listing-page fetches are exactly the root URL followed by
`page/2/`, `page/3/`, ... up to the last chain page, in that order and each
exactly once — the URL list is duplicate-free — while author-page fetches
are the only other requests and are filtered out by URL. -/
theorem C2_pagination (site : Site) (pages : List Soup) (fuel : Nat)
    (hserve : servesChain site pages) (hok : pagesAllOk site pages)
    (havoid : pagesAvoidListing pages)
    (hne : pages ≠ []) (hfuel : pages.length - 1 ≤ fuel) :
    ∃ s', get_quotes site fuel initState = some (s', .ok (chainQuotes pages)) ∧
      (chainUrls 1 pages.length).Nodup ∧
      s'.trace.filter (isListingUrl pages.length) = chainUrls 1 pages.length := by
  obtain ⟨s', h1, _, ⟨tr, htr, hfil⟩⟩ :=
    get_quotes_chain site pages hserve hok hne fuel hfuel initState
  refine ⟨s', h1, chainUrls_nodup pages.length 1 (by omega), ?_⟩
  rw [htr]
  rw [show initState.trace = [] from rfl, List.nil_append]
  apply hfil
  · intro i hi
    rw [isListingUrl]
    exact decide_eq_true
      (pageUrl_mem_chainUrls pages.length 1 (i + 1) (by omega) (by omega))
  · intro p hp q hq
    exact havoid p hp q hq

/-- C2 (witness): on the concrete two-page chain the listing fetches are
exactly the root then `page/2/`, in order, once each. -/
theorem C2_witness :
    ∃ s', get_quotes chainSite 1 initState =
        some (s', .ok (chainQuotes chainPages)) ∧
      (chainUrls 1 chainPages.length).Nodup ∧
      s'.trace.filter (isListingUrl chainPages.length) =
        chainUrls 1 chainPages.length :=
  C2_pagination chainSite chainPages 1 ⟨by decide, by decide⟩
    (by unfold pagesAllOk; decide) (by unfold pagesAvoidListing; decide)
    (by decide) (by decide)
